import Mathlib

/-!
# Verification of the gonio-imsoft trial-synchronization core

Shallow embedding of the gonio-imsoft repository (arduino_serial.py,
motors.py, core.py, gonioimsoft/camera_client.py, gonioimsoft/stimulus.py)
and proofs about the frozen claims on its specification.

Numbers are modelled by `ℚ`: on every concrete input used below the Python
float arithmetic of the source is exact (dyadic values), so the rational
model agrees with the source bit for bit there.
-/

/-! ## Python primitives -/

/-- Python `int(q)` on a float: truncation toward zero. -/
def pyInt (q : ℚ) : ℤ :=
  if 0 ≤ q then ⌊q⌋ else -⌊-q⌋

/-- Python `round(q)` on a float: round half to even (banker's rounding). -/
def pyRound (q : ℚ) : ℤ :=
  if q - ⌊q⌋ < 1/2 then ⌊q⌋
  else if q - ⌊q⌋ > 1/2 then ⌊q⌋ + 1
  else if ⌊q⌋ % 2 = 0 then ⌊q⌋ else ⌊q⌋ + 1

/-- Numpy `arr[-1] = v`: fails (IndexError) on an empty array. -/
def setLast (l : List ℚ) (v : ℚ) : Option (List ℚ) :=
  if l.isEmpty then none else some (l.dropLast ++ [v])

/-! ## arduino_serial.py — `ArduinoReader` -/

namespace ArduinoSerial

/-- State of `ArduinoReader` (serial handle omitted; pure angle state). -/
structure Reader where
  latest_angle : ℤ × ℤ
  offset : ℤ × ℤ
deriving DecidableEq, Repr

/-- Fresh reader: `self.latest_angle = (0,0)`, `self.offset = (0,0)`. -/
def Reader.init : Reader := ⟨(0, 0), (0, 0)⟩

/-- `_offsetCorrect`: offset (zero-point) corrected angle pair. -/
def offsetCorrect (r : Reader) (angles : ℤ × ℤ) : ℤ × ℤ :=
  (angles.1 - r.offset.1, angles.2 - r.offset.2)

/-- `getLatest`: offset-corrected latest angle pair. -/
def getLatest (r : Reader) : ℤ × ℤ :=
  offsetCorrect r r.latest_angle

/-- `currentAsZero`: `self.offset = self.getLatest()`. -/
def currentAsZero (r : Reader) : Reader :=
  { r with offset := getLatest r }

end ArduinoSerial

/-! ## motors.py — `Motor` -/

namespace Motors

/-- A Python float that may be `±math.inf` (the motor limits). -/
inductive PFloat where
  | ninf : PFloat
  | fin (q : ℚ) : PFloat
  | inf : PFloat
deriving DecidableEq, Repr

/-- `limit ≤ q` for a possibly infinite limit. -/
def PFloat.leQ : PFloat → ℚ → Bool
  | .ninf, _ => true
  | .inf, _ => false
  | .fin a, b => a ≤ b

/-- `q ≤ limit` for a possibly infinite limit. -/
def PFloat.qLe : ℚ → PFloat → Bool
  | _, .ninf => false
  | _, .inf => true
  | a, .fin b => a ≤ b

/-- `limit < q` for a possibly infinite limit. -/
def PFloat.ltQ : PFloat → ℚ → Bool
  | .ninf, _ => true
  | .inf, _ => false
  | .fin a, b => a < b

/-- `q < limit` for a possibly infinite limit. -/
def PFloat.qLt : ℚ → PFloat → Bool
  | _, .ninf => false
  | _, .inf => true
  | a, .fin b => a < b

/-- State of `Motor`.  `limit0`/`limit1` are `self.limits[0]`/`self.limits[1]`;
`threadActive` models whether `self.thread` is truthy; `maxmis = 5`. -/
structure Motor where
  i_sensor : Option ℕ
  position : ℚ
  limit0 : PFloat
  limit1 : PFloat
  threadActive : Bool
  maxmis : ℚ
deriving DecidableEq, Repr

/-- A freshly constructed `Motor`: position 0, `limits = [-inf, inf]`,
`thread = None`, `maxmis = 5`. -/
def Motor.mk0 (i_sensor : Option ℕ) : Motor :=
  ⟨i_sensor, 0, .ninf, .inf, false, 5⟩

/-- `move_raw(direction, time)`.  Returns the new state and whether a motor
pulse was issued (`self.reader.move_motor` called).  The guard is the
source's condition verbatim:
`(limits[0] <= curpos and direction >= 0) or
 (curpos <= limits[1] and direction < 0) or
 (limits[0] < curpos < limits[1])`. -/
def Motor.move_raw (m : Motor) (direction : ℚ) (time : ℚ := 1) :
    Motor × Bool :=
  let curpos := m.position
  if (m.limit0.leQ curpos && decide (direction ≥ 0)) ||
     (PFloat.qLe curpos m.limit1 && decide (direction < 0)) ||
     (m.limit0.ltQ curpos && PFloat.qLt curpos m.limit1) then
    ({ m with position := m.position + time * direction }, true)
  else
    (m, false)

/-- `set_upper_limit`: the source writes `self.limits[0] = self.position`. -/
def Motor.set_upper_limit (m : Motor) : Motor :=
  { m with limit0 := .fin m.position }

/-- `set_lower_limit`: the source writes `self.limits[1] = self.position`. -/
def Motor.set_lower_limit (m : Motor) : Motor :=
  { m with limit1 := .fin m.position }

/-- `move_to(motor_position)`.

* Sensorless branch (`i_sensor is None`): the source reads the undefined
  name `position` (`time = position - motor_position`), a `NameError`.
* Sensor branch: the source only enters the thread-starting code under
  `if self.thread:` — i.e. when a correction loop is already active.  With
  no active loop it falls through and returns with no effect.  (The
  thread-construction line itself,
  `threading.Thread(target=self._move_to_thread, callable_getpos)`, is a
  positional-after-keyword syntax error and `threading` is never imported;
  it is modelled as an error.) -/
def Motor.move_to (m : Motor) (_motor_position : ℚ) : Except String Motor :=
  match m.i_sensor with
  | none => .error "NameError: name 'position' is not defined"
  | some _ =>
    if m.threadActive then
      .error "threading.Thread(target=..., callable_getpos): invalid call"
    else
      .ok m

/-- `reached_target`: `False` iff `self.thread` is truthy. -/
def Motor.reached_target (m : Motor) : Bool :=
  if m.threadActive then false else true

end Motors

/-! ## gonioimsoft/camera_client.py — `CameraClient.sendCommand` -/

namespace CameraClient

/-- `MAX_RETRIES = 100`. -/
def MAX_RETRIES : ℕ := 100

/-- `RETRY_INTERVAL = 1` (seconds of `time.sleep` between attempts). -/
def RETRY_INTERVAL : ℚ := 1

/-- Result of the connection loop of `sendCommand`:
number of `connect` attempts made, number of `time.sleep(RETRY_INTERVAL)`
calls made, and the outcome (`.error` models the re-raised
`ConnectionRefusedError`). -/
structure ConnectTrace where
  attempts : ℕ
  sleeps : ℕ
  outcome : Except String Unit
deriving Repr

/-- The `while True` connection loop of `sendCommand`, starting from a given
`tries` counter.  `connectOk j` tells whether the `j`-th connection attempt
(0-based, `j` = failures so far) is accepted; refusals raise
`ConnectionRefusedError` which the loop catches. -/
def sendLoop (connectOk : ℕ → Bool) (retries tries : ℕ) : ConnectTrace :=
  if connectOk tries then
    ⟨1, 0, .ok ()⟩
  else if tries + 1 > retries then
    ⟨1, 0, .error "Cannot connect to the camera server"⟩
  else
    let t := sendLoop connectOk retries (tries + 1)
    ⟨t.attempts + 1, t.sleeps + 1, t.outcome⟩
termination_by retries - tries
decreasing_by
  rename_i h2
  simp at h2
  omega

/-- The connection phase of `sendCommand(command_string, retries, listen)`:
`tries = 0`, then the loop. -/
def sendCommand (connectOk : ℕ → Bool) (retries : ℕ := MAX_RETRIES) :
    ConnectTrace :=
  sendLoop connectOk retries 0

end CameraClient

/-! ## core.py — `Dynamic.analog_output` timeout -/

namespace Core

/-- The timeout the source passes to the blocking wait:
`task.wait_until_done(timeout=len(stimuli[0])*fs*1.5)`. -/
def analog_output_timeout (n_samples : ℕ) (fs : ℚ) : ℚ :=
  (n_samples : ℚ) * fs * (3/2)

/-- The timeout the specification states: 1.5 times the nominal waveform
duration `n / fs`. -/
def spec_timeout (n_samples : ℕ) (fs : ℚ) : ℚ :=
  (3/2) * ((n_samples : ℚ) / fs)

/-- `nidaqmx` `task.wait_until_done(timeout)`: returns normally when playback
completes within `timeout` seconds, otherwise raises a `DaqError` (modelled
from the nidaqmx API used by the source).  `analog_output` wraps it in no
`try`/`except`, so the error propagates to the caller. -/
def wait_until_done (timeout actual_duration : ℚ) : Except String Unit :=
  if actual_duration ≤ timeout then .ok ()
  else .error "DaqError: Wait Until Done did not indicate completion"

/-- The blocking wait at the end of `analog_output` for waveforms of
`n_samples` samples at rate `fs`, when playback actually takes
`actual_duration` seconds. -/
def analog_output_wait (n_samples : ℕ) (fs actual_duration : ℚ) :
    Except String Unit :=
  wait_until_done (analog_output_timeout n_samples fs) actual_duration

end Core

/-! ## gonioimsoft/stimulus.py — `StimulusBuilder` -/

namespace Stimulus

/-- Split a character list at every occurrence of `sep`
(Python `str.split(sep)` for a one-character separator). -/
def splitOnChar (sep : Char) : List Char → List (List Char)
  | [] => [[]]
  | c :: t =>
    let r := splitOnChar sep t
    if c = sep then [] :: r
    else
      match r with
      | [] => [[c]]
      | h :: t2 => (c :: h) :: t2

/-- Whether `needle` occurs as a contiguous subsequence of `hay`
(Python `needle in hay` on strings). -/
def containsSeq (needle hay : List Char) : Bool :=
  needle.isPrefixOf hay ||
    match hay with
    | [] => false
    | _ :: t => containsSeq needle t

/-- Numeric value of a digit string. -/
def natOfDigits (l : List Char) : ℕ :=
  l.foldl (fun a c => a * 10 + (c.toNat - 48)) 0

/-- A concrete instance of the `float()`-oracle (see `sweepParse`) used
only in the concrete runs below: plain unsigned or signed decimal
literals with an optional single point.  It is not a model of the full
builtin — the theorems about the sweep branch quantify over every
oracle — but it agrees with Python's `float()` on each field string the
witnesses exercise (digit strings parse to their value; `a`, `b` raise). -/
def simpleFloat (cs : List Char) : Option ℚ :=
  let core : ℚ × List Char :=
    match cs with
    | '-' :: t => (-1, t)
    | '+' :: t => (1, t)
    | t => (1, t)
  match splitOnChar '.' core.2 with
  | [a] =>
    if a ≠ [] ∧ a.all Char.isDigit then some (core.1 * natOfDigits a)
    else none
  | [a, b] =>
    if (a ++ b) ≠ [] ∧ (a ++ b).all Char.isDigit then
      some (core.1 * ((natOfDigits a : ℚ) + (natOfDigits b : ℚ) / 10 ^ b.length))
    else none
  | _ => none

/-- `np.linspace(a, b, n)` (with the default inclusive endpoint). -/
def linspace (a b : ℚ) (n : ℕ) : List ℚ :=
  if n ≤ 1 then List.replicate n a
  else (List.range n).map (fun i : ℕ => a + (b - a) * (i : ℚ) / ((n : ℚ) - 1))

/-- Force a waveform to an exact sample count, the source's
"Theres a bug in this code" fixup in `get_camera`: truncate when longer,
zero-pad when shorter. -/
def forceLen (l : List ℚ) (n : ℕ) : List ℚ :=
  if n < l.length then l.take n
  else if l.length < n then l ++ List.replicate (n - l.length) 0
  else l

/-- The transcendental float values the sweep branch consumes, modelled
abstractly: `chirp f0 f1 t1 t` is
`scipy.signal.chirp(t, f0=f0, f1=f1, t1=t1, phi=-90, method='logarithmic')`
at a single time point (numpy applies it elementwise), and `cstep` is
`np.sin(np.pi/4)`.  Every claim settled below holds for all values of
these fields. -/
structure NumpyOracle where
  chirp : ℚ → ℚ → ℚ → ℚ → ℚ
  cstep : ℚ

/-- State of `StimulusBuilder` after `__init__` (plus a possible
`overload_biosyst_stimulus` call, recorded in `overload_stimulus`). -/
structure StimulusBuilder where
  stim_time : ℚ
  prestim_time : ℚ
  poststim_time : ℚ
  frame_length : ℚ
  stimulus_intensity : ℚ
  illumination_intensity : ℚ
  fs : ℚ
  stimulus_finalval : ℚ
  illumination_finalval : ℚ
  wtype : String
  overload_stimulus : Option (List ℚ)

/-- `self.N_frames = int(round((stim_time+prestim_time+poststim_time)/frame_length))`. -/
def StimulusBuilder.N_frames (b : StimulusBuilder) : ℤ :=
  pyRound ((b.stim_time + b.prestim_time + b.poststim_time) / b.frame_length)

/-- `N0_samples = int(self.prestim_time*self.fs)` (`np.zeros`/`np.ones`
reject a negative count; all claims assume nonnegative durations, so the
`Int.toNat` clamp is never exercised). -/
def StimulusBuilder.N0_samples (b : StimulusBuilder) : ℕ :=
  (pyInt (b.prestim_time * b.fs)).toNat

/-- `N1_samples = int(self.stim_time*self.fs)`. -/
def StimulusBuilder.N1_samples (b : StimulusBuilder) : ℕ :=
  (pyInt (b.stim_time * b.fs)).toNat

/-- `N2_samples = int(self.poststim_time*self.fs)`. -/
def StimulusBuilder.N2_samples (b : StimulusBuilder) : ℕ :=
  (pyInt (b.poststim_time * b.fs)).toNat

/-- The `try:` block of the sweep branch:
`wtype, f0, f1 = self.wtype.split(','); f0 = float(f0); f1 = float(f1)`.
The builtin `float()` is modelled by the abstract oracle `pyfloat`
(`pyfloat s = none` means `float(s)` raises `ValueError`, `some q` that
it returns the value `q`); quantifying over the oracle covers every
behavior of the real parser — scientific notation, whitespace padding,
`inf`/`nan`, digit underscores included.  An overall `none` models the
caught exception: wrong field count or a field `float()` rejects. -/
def sweepParse (pyfloat : List Char → Option ℚ) (wtype : List Char) :
    Option (List Char × ℚ × ℚ) :=
  match splitOnChar ',' wtype with
  | [t, s0, s1] =>
    match pyfloat s0, pyfloat s1 with
    | some f0, some f1 => some (t, f0, f1)
    | _, _ => none
  | _ => none

/-- Resolution of `wtype`, `f0`, `f1` after the `try`/`except`: the
parsed triple on success, else
`f0=0.5; f1=100; wtype=self.wtype` (the source also prints
"Doing logsweep from 0.5 Hz to 100 Hz" on that path). -/
def sweepResolve (pyfloat : List Char → Option ℚ) (w : List Char) :
    List Char × ℚ × ℚ :=
  match sweepParse pyfloat w with
  | some v => v
  | none => (w, 1/2, 100)

/-- The per-`wtype` quantization of the chirp samples (the masked
assignments of the source, which for the nonnegative `cstep` =
`sin(π/4)` coincide with this elementwise form), or the
`ValueError('Unkown flash_type')`. -/
def sweepQuantize (npo : NumpyOracle) (wtype : List Char)
    (active : List ℚ) : Except String (List ℚ) :=
  if wtype = "squarelogsweep".toList then
    .ok (active.map (fun x => if 0 < x then 1 else if x < 0 then -1 else x))
  else if wtype = "3steplogsweep".toList then
    .ok (active.map (fun x =>
      if |x| ≤ npo.cstep then 0
      else if npo.cstep < x then 1
      else if x < -npo.cstep then -1
      else x))
  else if wtype = "sinelogsweep".toList then
    .ok active
  else
    .error "ValueError: Unkown flash_type"

/-- `StimulusBuilder.get_stimulus_pulse`.  Follows the source's control
flow exactly: the overload early-return; the `'square'` branch; the
`'logsweep' in wtype` branch whose `try` either unpacks the split
(`sweepParse`, with `float()` abstracted as the `pyfloat` oracle) or
falls back to `f0=0.5, f1=100, wtype=self.wtype`; per-`wtype`
quantization; the final `ValueError`; scaling by `stimulus_intensity`;
and `stimulus[-1] = stimulus_finalval`. -/
def StimulusBuilder.get_stimulus_pulse (npo : NumpyOracle)
    (pyfloat : List Char → Option ℚ) (b : StimulusBuilder) :
    Except String (List ℚ) :=
  match b.overload_stimulus with
  | some l => .ok l
  | none =>
    if b.wtype = "square" then
      match setLast ((List.replicate b.N0_samples (0 : ℚ) ++
          List.replicate b.N1_samples 1 ++
          List.replicate b.N2_samples 0).map
            (fun x => b.stimulus_intensity * x)) b.stimulus_finalval with
      | some r => .ok r
      | none => .error "IndexError: index -1 is out of bounds"
    else if containsSeq "logsweep".toList b.wtype.toList then
      match sweepQuantize npo (sweepResolve pyfloat b.wtype.toList).1
          ((linspace 0 b.stim_time b.N1_samples).map
            (npo.chirp (sweepResolve pyfloat b.wtype.toList).2.1
              (sweepResolve pyfloat b.wtype.toList).2.2 b.stim_time)) with
      | .error e => .error e
      | .ok act =>
        -- join with pre/post 0.5 levels, move/scale from [-1,1] to [0,1]
        match setLast ((List.replicate b.N0_samples (1/2 : ℚ) ++
            act.map (fun x => (x + 1) / 2) ++
            List.replicate b.N2_samples (1/2)).map
              (fun x => b.stimulus_intensity * x)) b.stimulus_finalval with
        | some r => .ok r
        | none => .error "IndexError: index -1 is out of bounds"
    else
      .error "ValueError: Invalid wtype given"

/-- The sample count of `get_illumination`:
`int((self.stim_time+self.prestim_time+self.poststim_time)*self.fs)`. -/
def StimulusBuilder.n_illumination (b : StimulusBuilder) : ℕ :=
  (pyInt ((b.stim_time + b.prestim_time + b.poststim_time) * b.fs)).toNat

/-- `StimulusBuilder.get_illumination`. -/
def StimulusBuilder.get_illumination (b : StimulusBuilder) :
    Except String (List ℚ) :=
  match setLast ((List.replicate b.n_illumination (1 : ℚ)).map
      (fun x => b.illumination_intensity * x))
      b.illumination_finalval with
  | some r => .ok r
  | none => .error "IndexError: index -1 is out of bounds"

/-- One camera trigger channel of `get_camera` (loop body for channel
index `i`): `N_frames` frames of `samples_per_frame` high samples
(scaled to 3.3 V) then `samples_per_frame` low ones, optionally rotated
by `shift*i`, forced to the common length, last sample zeroed. -/
def StimulusBuilder.camera_channel (b : StimulusBuilder)
    (shift i : ℕ) : Option (List ℚ) :=
  let spf := (pyInt (b.frame_length * b.fs / 2)).toNat
  let base := (List.replicate b.N_frames.toNat
    (List.replicate spf (1 : ℚ) ++ List.replicate spf 0)).flatten
  let camera := base.map (fun x => (33/10) * x)
  let ashift := shift * i
  let camera := if ashift ≠ 0 then camera.drop ashift ++ camera.take ashift
    else camera
  let camera := forceLen camera (b.N0_samples + b.N1_samples + b.N2_samples)
  setLast camera 0

/-- The channel-collecting loop of `get_camera`. -/
def StimulusBuilder.camera_channels (b : StimulusBuilder) (shift : ℕ) :
    List ℕ → Except String (List (List ℚ))
  | [] => .ok []
  | i :: rest =>
    match b.camera_channel shift i, b.camera_channels shift rest with
    | some c, .ok cs => .ok (c :: cs)
    | none, _ => .error "IndexError: index -1 is out of bounds"
    | _, .error e => .error e

/-- `StimulusBuilder.get_camera(N, interleaved)`. -/
def StimulusBuilder.get_camera (b : StimulusBuilder) (N : ℕ := 1)
    (interleaved : Bool := false) : Except String (List (List ℚ)) :=
  let spf := (pyInt (b.frame_length * b.fs / 2)).toNat
  let shift := if interleaved then (pyInt ((spf * 2 : ℚ) / N)).toNat else 0
  b.camera_channels shift (List.range N)

/-- The waveform-type tags the claim lists as recognized. -/
def recognizedWtype (w : String) : Bool :=
  w.toList = "square".toList || w.toList = "sinelogsweep".toList ||
  w.toList = "squarelogsweep".toList || w.toList = "3steplogsweep".toList

/-- The claim's notion of a well-formed sweep-range spec: a tag
containing `logsweep` that splits on commas into exactly
`tag, f0, f1` with `f0`/`f1` accepted by `float()` and a recognized
sweep tag.  Numeric acceptance is judged by the same `float()` oracle
the synthesis path consults, so a spec whose fields the real Python
parser accepts (scientific notation, padded whitespace, …) counts as
well-formed under the true oracle. -/
def wellFormedSweep (pyfloat : List Char → Option ℚ) (w : String) : Bool :=
  containsSeq "logsweep".toList w.toList &&
    match sweepParse pyfloat w.toList with
    | some v => v.1 = "squarelogsweep".toList ||
        v.1 = "3steplogsweep".toList || v.1 = "sinelogsweep".toList
    | none => false

end Stimulus

/-- A fixed oracle for concrete runs (its values never matter to the
claims). -/
def npo0 : Stimulus.NumpyOracle := ⟨fun _ _ _ _ => 0, 7/10⟩

/-- Concrete builder: `stim = prestim = poststim = frame_length = 1` s,
intensities 1, `fs = 1` Hz, `stimulus_finalval = 9`,
`illumination_finalval = 7`, square waveform, no overload.  All products
`duration·fs` are integers, so Python float arithmetic is exact here. -/
def bSquare3 : Stimulus.StimulusBuilder :=
  ⟨1, 1, 1, 1, 1, 1, 1, 9, 7, "square", none⟩

/-- Concrete builder: `stim = prestim = poststim = 1/2` s at `fs = 3` Hz
(float-exact values: `0.5*3 = 1.5` and `1.5*3 = 4.5` are exact in
binary floating point), square waveform, no overload. -/
def bHalf : Stimulus.StimulusBuilder :=
  ⟨1/2, 1/2, 1/2, 1/2, 1, 1, 3, 0, 0, "square", none⟩

/-! ## core.py — `Dynamic.image_series3`, the trial sequencer -/

namespace Core

/-- Externally visible actions of one `image_series3` run, in program
order.  `sleep` carries seconds; `setLed` a channel id and voltage;
`poll i` one invocation of `inter_loop_callback(i)`;
`setIsiSleptTime t` the assignment `self.isi_slept_time = t`. -/
inductive Ev where
  | sleep (d : ℚ)
  | setLed (ch : ℕ) (v : ℚ)
  | saveDescription
  | poll (i : ℕ)
  | getPulse (i : ℕ)
  | acquireSeries (i : ℕ)
  | analogOutput (i : ℕ)
  | setIsiSleptTime (t : ℚ)
deriving DecidableEq, Repr

/-- A dynamic parameter that may be a scalar or a list
(`isi` and `flash_on`). -/
inductive ParamVal where
  | scalar (v : ℚ)
  | list (l : List ℚ)

/-- The per-repeat coercion at the top of `image_series3`: a non-list is
broadcast to `repeats` copies; a list of the wrong length collapses to
`repeats` copies of its first element (`[param[0]] * repeats`; the
first-element read assumes a nonempty list, `headD` standing in for the
valid-parameter case). -/
def coerceParam : ParamVal → ℕ → List ℚ
  | .scalar v, n => List.replicate n v
  | .list l, n => if l.length ≠ n then List.replicate n (l.headD 0) else l

/-- The dynamic parameters `image_series3` reads. -/
structure Params where
  repeats : ℕ
  isi : ParamVal
  flash_on : ParamVal
  frame_length : ℚ
  pre_stim : ℚ
  stim : ℚ
  post_stim : ℚ
  ir_channel : ℕ
  flash_channel : ℕ
  ir_imaging : ℚ
  ir_waiting : ℚ
  ir_livefeed : ℚ
  flash_off : ℚ

/-- `if callable(inter_loop_callback) and inter_loop_callback(i) == False`. -/
def cbFalse (cb : Option (ℕ → Bool)) (i : ℕ) : Bool :=
  match cb with
  | some f => !f i
  | none => false

/-- The non-final inter-trial deadline the source computes:
`wakeup_time = time.time() + dynamic_parameters['isi'][i]-0.5`. -/
def wakeup_time (now isi_i : ℚ) : ℚ := now + isi_i - 1/2

/-- The inter-trial deadline §4.5/§8 of the specification state for a
non-final repeat: the repeat's end time plus its full coerced `isi[i]`. -/
def spec_intertrial_deadline (endTime isi_i : ℚ) : ℚ := endTime + isi_i

/-- The busy-wait of a non-final repeat
(`while wakeup_time > time.time(): poll; time.sleep(0.01)`), on an
idealized clock that advances exactly `0.01` s per sleep.  Fuel-driven;
the caller supplies enough fuel for the loop to reach its exit
condition.  Returns the events, the clock on exit, and the
`exit_imaging` flag. -/
def intertrialWait (cb : Option (ℕ → Bool)) (i : ℕ) (wakeup : ℚ) :
    (clock : ℚ) → (fuel : ℕ) → List Ev × ℚ × Bool
  | clock, 0 => ([], clock, false)
  | clock, fuel + 1 =>
    if clock < wakeup then
      match cb with
      | some f =>
        if f i = false then ([.poll i], clock, true)
        else
          let r := intertrialWait cb i wakeup (clock + 1/100) fuel
          (.poll i :: .sleep (1/100) :: r.1, r.2)
      | none =>
        let r := intertrialWait cb i wakeup (clock + 1/100) fuel
        (.sleep (1/100) :: r.1, r.2)
    else ([], clock, false)

/-- Lines 410–419 of core.py: the inter-trial phase after repeat `i` ends
at time `clock`.  Final repeat: record
`self.isi_slept_time = time.time() + isi[i]` and fall through at once.
Non-final repeat: busy-wait on `wakeup_time`. -/
def interTrialPhase (cb : Option (ℕ → Bool)) (i : ℕ) (isi_i : ℚ)
    (isLast : Bool) (clock : ℚ) : List Ev × ℚ × Bool :=
  if isLast then
    ([.setIsiSleptTime (clock + isi_i)], clock, false)
  else
    let wakeup := wakeup_time clock isi_i
    intertrialWait cb i wakeup clock (⌈(wakeup - clock) * 100⌉₊ + 1)

/-- The `for i in range(repeats)` loop of `image_series3`, from repeat
index `i` with `n` repeats remaining (`i + n = repeats` at the top-level
call).  `fails j` tells whether `analog_output` raises on repeat `j`
(e.g. the `DaqError` of a stalled trigger); a raise propagates, ending
the run with that error and skipping all later code.  Returns
(events, error, final clock). -/
def runLoop (p : Params) (cb : Option (ℕ → Bool)) (fails : ℕ → Bool)
    (isiL : List ℚ) : (n : ℕ) → (i : ℕ) → (clock : ℚ) → (exit0 : Bool) →
    List Ev × Option String × ℚ
  | 0, _, clock, _ => ([], none, clock)
  | n + 1, i, clock, exit0 =>
    -- `if callable(inter_loop_callback) and inter_loop_callback(i) == False:`
    let exit1 := if cbFalse cb i then true else exit0
    let pollEvs : List Ev := match cb with
      | some _ => [.poll i]
      | none => []
    if exit1 then (pollEvs, none, clock)  -- `if exit_imaging: break`
    else
      -- get_pulse_stimulus; set_led(ir, imaging); sleep(0.5); acquireSeries
      let bodyEvs := pollEvs ++ [Ev.getPulse i,
        Ev.setLed p.ir_channel p.ir_imaging, Ev.sleep (1/2),
        Ev.acquireSeries i]
      let clock1 := clock + 1/2
      if fails i then
        (bodyEvs, some "analog_output raised", clock1)
      else
        let bodyEvs2 := bodyEvs ++ [Ev.analogOutput i,
          Ev.setLed p.ir_channel p.ir_waiting]
        let w := interTrialPhase cb i (isiL.getD i 0)
          (decide (i + 1 = p.repeats)) clock1
        let r := runLoop p cb fails isiL n (i + 1) w.2.1 w.2.2
        (bodyEvs2 ++ w.1 ++ r.1, r.2.1, r.2.2)

/-- Result of one `image_series3` run: its event trace, the exception it
ended with (if any), and the clock at exit. -/
structure RunResult where
  events : List Ev
  err : Option String
  finalClock : ℚ
deriving Repr

/-- Lines 343–349 of core.py: on entry, if a previous run recorded an
`isi_slept_time` still in the future, sleep until it.  Returns the
events and the clock afterwards. -/
def prologue (isi_slept_time : Option ℚ) (clock0 : ℚ) : List Ev × ℚ :=
  match isi_slept_time with
  | some t => if clock0 < t then ([.sleep (t - clock0)], t) else ([], clock0)
  | none => ([], clock0)

/-- One poll-then-sleep cycle of the inter-trial busy-wait. -/
def pollCycle (i : ℕ) : List Ev := [Ev.poll i, Ev.sleep (1/100)]

/-- `Dynamic.image_series3`: wait out a previous run's
`isi_slept_time` if set, coerce `isi`/`flash_on`, save the description,
run the repeat loop, and - only when no exception propagated - restore
the live-feed illumination (`set_led(ir_channel, ir_livefeed)` is the
straight-line statement after the loop, not a `finally`). -/
def image_series3 (p : Params) (cb : Option (ℕ → Bool))
    (fails : ℕ → Bool) (isi_slept_time : Option ℚ) (clock0 : ℚ) :
    RunResult :=
  match (runLoop p cb fails (coerceParam p.isi p.repeats) p.repeats 0
      (prologue isi_slept_time clock0).2 false).2.1 with
  | some e =>
    ⟨(prologue isi_slept_time clock0).1 ++ [Ev.saveDescription] ++
      (runLoop p cb fails (coerceParam p.isi p.repeats) p.repeats 0
        (prologue isi_slept_time clock0).2 false).1,
     some e,
     (runLoop p cb fails (coerceParam p.isi p.repeats) p.repeats 0
       (prologue isi_slept_time clock0).2 false).2.2⟩
  | none =>
    ⟨(prologue isi_slept_time clock0).1 ++ [Ev.saveDescription] ++
      (runLoop p cb fails (coerceParam p.isi p.repeats) p.repeats 0
        (prologue isi_slept_time clock0).2 false).1 ++
      [Ev.setLed p.ir_channel p.ir_livefeed],
     none,
     (runLoop p cb fails (coerceParam p.isi p.repeats) p.repeats 0
       (prologue isi_slept_time clock0).2 false).2.2⟩

/-- The last `setLed` event of a trace (the illumination/flash level the
hardware is left at). -/
def lastSetLed (evs : List Ev) : Option (ℕ × ℚ) :=
  evs.foldl (fun acc e => match e with
    | .setLed ch v => some (ch, v)
    | _ => acc) none

/-- Concrete sequencer parameters: one repeat, distinct illumination
levels (`ir_imaging = 5`, `ir_waiting = 2`, `ir_livefeed = 3`). -/
def pFail : Params := ⟨1, .scalar 1, .scalar 1, 1, 1, 1, 1, 0, 1, 5, 2, 3, 0⟩

/-- Concrete sequencer parameters: five repeats (the specification's
abort example), same channels and levels as `pFail`. -/
def pFive : Params := ⟨5, .scalar 1, .scalar 1, 1, 1, 1, 1, 0, 1, 5, 2, 3, 0⟩

end Core

/-! ## Helper lemmas -/

theorem setLast_length (l : List ℚ) (v : ℚ) (r : List ℚ)
    (h : setLast l v = some r) : r.length = l.length := by
  unfold setLast at h
  split at h
  · exact absurd h (by simp)
  · rename_i hne
    injection h with h
    subst h
    have hl : l ≠ [] := by
      intro he; rw [he] at hne; simp at hne
    have hpos : 0 < l.length := List.length_pos.mpr hl
    simp [List.length_dropLast]
    omega

theorem setLast_getLast (l : List ℚ) (v : ℚ) (r : List ℚ)
    (h : setLast l v = some r) : r.getLast? = some v := by
  unfold setLast at h
  split at h
  · exact absurd h (by simp)
  · injection h with h
    subst h
    simp

theorem pyInt_intCast (a : ℤ) : pyInt (a : ℚ) = a := by
  unfold pyInt
  split
  · exact Int.floor_intCast a
  · rw [← Int.cast_neg, Int.floor_intCast]
    omega

theorem pyRound_intCast (a : ℤ) : pyRound (a : ℚ) = a := by
  unfold pyRound
  rw [Int.floor_intCast]
  rw [if_pos (by rw [sub_self]; norm_num)]

theorem Stimulus.linspace_length (a b : ℚ) (n : ℕ) :
    (Stimulus.linspace a b n).length = n := by
  unfold Stimulus.linspace
  split
  · simp
  · rw [List.length_map, List.length_range]

theorem Stimulus.forceLen_length (l : List ℚ) (n : ℕ) :
    (Stimulus.forceLen l n).length = n := by
  unfold Stimulus.forceLen
  split
  · rename_i h
    simp [List.length_take]
    omega
  · split
    · rename_i h1 h2
      simp
      omega
    · rename_i h1 h2
      omega

theorem Stimulus.sweepQuantize_length (npo : Stimulus.NumpyOracle)
    (w : List Char) (a act : List ℚ)
    (h : Stimulus.sweepQuantize npo w a = .ok act) :
    act.length = a.length := by
  unfold Stimulus.sweepQuantize at h
  split_ifs at h
  · injection h with h; subst h; simp
  · injection h with h; subst h; simp
  · injection h with h; subst h; rfl

/-- Length of the synthesized (non-overloaded) stimulus channel:
`int(prestim*fs) + int(stim*fs) + int(poststim*fs)` samples, for every
waveform type that synthesizes successfully. -/
theorem Stimulus.get_stimulus_pulse_length (npo : Stimulus.NumpyOracle)
    (pyfloat : List Char → Option ℚ) (b : Stimulus.StimulusBuilder)
    (ls : List ℚ) (hover : b.overload_stimulus = none)
    (h : b.get_stimulus_pulse npo pyfloat = .ok ls) :
    ls.length = b.N0_samples + b.N1_samples + b.N2_samples := by
  simp only [Stimulus.StimulusBuilder.get_stimulus_pulse, hover] at h
  split_ifs at h with hsq hlog
  · split at h
    · rename_i r heq
      injection h with h
      subst h
      have := setLast_length _ _ _ heq
      simp only [List.length_map, List.length_append,
        List.length_replicate] at this
      omega
    · exact Except.noConfusion h
  · split at h
    · exact Except.noConfusion h
    · rename_i act heq
      split at h
      · rename_i r heq2
        injection h with h
        subst h
        have hl := setLast_length _ _ _ heq2
        have ha := Stimulus.sweepQuantize_length _ _ _ _ heq
        simp only [List.length_map, List.length_append,
          List.length_replicate, Stimulus.linspace_length] at hl ha
        omega
      · exact Except.noConfusion h

/-- Last sample of the synthesized (non-overloaded) stimulus channel:
always the configured `stimulus_finalval`. -/
theorem Stimulus.get_stimulus_pulse_getLast (npo : Stimulus.NumpyOracle)
    (pyfloat : List Char → Option ℚ) (b : Stimulus.StimulusBuilder)
    (ls : List ℚ) (hover : b.overload_stimulus = none)
    (h : b.get_stimulus_pulse npo pyfloat = .ok ls) :
    ls.getLast? = some b.stimulus_finalval := by
  simp only [Stimulus.StimulusBuilder.get_stimulus_pulse, hover] at h
  split_ifs at h with hsq hlog
  · split at h
    · rename_i r heq
      injection h with h
      subst h
      exact setLast_getLast _ _ _ heq
    · exact Except.noConfusion h
  · split at h
    · exact Except.noConfusion h
    · rename_i act heq
      split at h
      · rename_i r heq2
        injection h with h
        subst h
        exact setLast_getLast _ _ _ heq2
      · exact Except.noConfusion h

theorem Stimulus.get_illumination_length (b : Stimulus.StimulusBuilder)
    (li : List ℚ) (h : b.get_illumination = .ok li) :
    li.length = b.n_illumination := by
  delta Stimulus.StimulusBuilder.get_illumination at h
  split at h
  · rename_i r heq
    injection h with h
    subst h
    have := setLast_length _ _ _ heq
    simpa using this
  · exact Except.noConfusion h

theorem Stimulus.get_illumination_getLast (b : Stimulus.StimulusBuilder)
    (li : List ℚ) (h : b.get_illumination = .ok li) :
    li.getLast? = some b.illumination_finalval := by
  delta Stimulus.StimulusBuilder.get_illumination at h
  split at h
  · rename_i r heq
    injection h with h
    subst h
    exact setLast_getLast _ _ _ heq
  · exact Except.noConfusion h

theorem Stimulus.camera_channel_length (b : Stimulus.StimulusBuilder)
    (shift i : ℕ) (c : List ℚ)
    (h : b.camera_channel shift i = some c) :
    c.length = b.N0_samples + b.N1_samples + b.N2_samples := by
  unfold Stimulus.StimulusBuilder.camera_channel at h
  have := setLast_length _ _ _ h
  rw [this, Stimulus.forceLen_length]

theorem Stimulus.camera_channel_getLast (b : Stimulus.StimulusBuilder)
    (shift i : ℕ) (c : List ℚ)
    (h : b.camera_channel shift i = some c) :
    c.getLast? = some 0 := by
  unfold Stimulus.StimulusBuilder.camera_channel at h
  exact setLast_getLast _ _ _ h

theorem Stimulus.camera_channels_length (b : Stimulus.StimulusBuilder)
    (shift : ℕ) (idx : List ℕ) (lc : List (List ℚ))
    (h : b.camera_channels shift idx = .ok lc) :
    ∀ c ∈ lc, c.length = b.N0_samples + b.N1_samples + b.N2_samples := by
  induction idx generalizing lc with
  | nil =>
    unfold Stimulus.StimulusBuilder.camera_channels at h
    injection h with h
    subst h
    intro c hc
    exact absurd hc (by simp)
  | cons i rest ih =>
    unfold Stimulus.StimulusBuilder.camera_channels at h
    split at h
    · rename_i c cs heq1 heq2
      injection h with h
      subst h
      intro c' hc'
      rcases List.mem_cons.mp hc' with he | hm
      · subst he
        exact Stimulus.camera_channel_length _ _ _ _ heq1
      · exact ih cs heq2 c' hm
    · exact Except.noConfusion h
    · exact Except.noConfusion h

theorem Stimulus.camera_channels_getLast (b : Stimulus.StimulusBuilder)
    (shift : ℕ) (idx : List ℕ) (lc : List (List ℚ))
    (h : b.camera_channels shift idx = .ok lc) :
    ∀ c ∈ lc, c.getLast? = some 0 := by
  induction idx generalizing lc with
  | nil =>
    unfold Stimulus.StimulusBuilder.camera_channels at h
    injection h with h
    subst h
    intro c hc
    exact absurd hc (by simp)
  | cons i rest ih =>
    unfold Stimulus.StimulusBuilder.camera_channels at h
    split at h
    · rename_i c cs heq1 heq2
      injection h with h
      subst h
      intro c' hc'
      rcases List.mem_cons.mp hc' with he | hm
      · subst he
        exact Stimulus.camera_channel_getLast _ _ _ _ heq1
      · exact ih cs heq2 c' hm
    · exact Except.noConfusion h
    · exact Except.noConfusion h

theorem Stimulus.get_camera_length (b : Stimulus.StimulusBuilder)
    (N : ℕ) (intl : Bool) (lc : List (List ℚ))
    (h : b.get_camera N intl = .ok lc) :
    ∀ c ∈ lc, c.length = b.N0_samples + b.N1_samples + b.N2_samples := by
  unfold Stimulus.StimulusBuilder.get_camera at h
  exact Stimulus.camera_channels_length _ _ _ _ h

theorem Stimulus.get_camera_getLast (b : Stimulus.StimulusBuilder)
    (N : ℕ) (intl : Bool) (lc : List (List ℚ))
    (h : b.get_camera N intl = .ok lc) :
    ∀ c ∈ lc, c.getLast? = some 0 := by
  unfold Stimulus.StimulusBuilder.get_camera at h
  exact Stimulus.camera_channels_getLast _ _ _ _ h

theorem pyInt_eq (q : ℚ) (z : ℤ) (h0 : 0 ≤ q) (h1 : (z : ℚ) ≤ q)
    (h2 : q < z + 1) : pyInt q = z := by
  unfold pyInt
  rw [if_pos h0]
  exact Int.floor_eq_iff.mpr ⟨h1, h2⟩

theorem pyRound_eval_low (q : ℚ) (z : ℤ) (h1 : (z : ℚ) ≤ q)
    (h2 : q - z < 1/2) : pyRound q = z := by
  have hf : ⌊q⌋ = z := Int.floor_eq_iff.mpr ⟨h1, by linarith⟩
  unfold pyRound
  rw [hf, if_pos (by linarith)]

theorem pyRound_eval_half_even (q : ℚ) (z : ℤ) (hf : ⌊q⌋ = z)
    (h2 : q - z = 1/2) (he : z % 2 = 0) : pyRound q = z := by
  unfold pyRound
  rw [hf]
  rw [if_neg (by rw [show q - (z:ℚ) = 1/2 from h2]; norm_num),
    if_neg (by rw [show q - (z:ℚ) = 1/2 from h2]; norm_num),
    if_pos he]

/-- Concrete evaluation: `bSquare3`'s three window sample counts are 1. -/
theorem bSquare3_counts :
    bSquare3.N0_samples = 1 ∧ bSquare3.N1_samples = 1 ∧
    bSquare3.N2_samples = 1 ∧ bSquare3.n_illumination = 3 ∧
    bSquare3.N_frames = 3 := by
  have hi1 : pyInt ((1 : ℚ) * 1) = 1 := pyInt_eq _ 1 (by norm_num)
    (by norm_num) (by norm_num)
  have hi3 : pyInt (((1 : ℚ) + 1 + 1) * 1) = 3 := pyInt_eq _ 3 (by norm_num)
    (by norm_num) (by norm_num)
  have hr3 : pyRound (((1 : ℚ) + 1 + 1) / 1) = 3 := pyRound_eval_low _ 3
    (by norm_num) (by norm_num)
  refine ⟨?_, ?_, ?_, ?_, ?_⟩
  · simp only [Stimulus.StimulusBuilder.N0_samples, bSquare3, hi1]
    rfl
  · simp only [Stimulus.StimulusBuilder.N1_samples, bSquare3, hi1]
    rfl
  · simp only [Stimulus.StimulusBuilder.N2_samples, bSquare3, hi1]
    rfl
  · simp only [Stimulus.StimulusBuilder.n_illumination, bSquare3, hi3]
    rfl
  · simp only [Stimulus.StimulusBuilder.N_frames, bSquare3, hr3]

/-- Concrete evaluation of the stimulus channel for `bSquare3`. -/
theorem bSquare3_pulse_eval :
    bSquare3.get_stimulus_pulse npo0 Stimulus.simpleFloat = .ok [0, 1, 9] := by
  obtain ⟨h0, h1, h2, _, _⟩ := bSquare3_counts
  have hov : bSquare3.overload_stimulus = none := rfl
  simp only [Stimulus.StimulusBuilder.get_stimulus_pulse, hov, h0, h1, h2]
  norm_num [bSquare3, setLast]

/-- Concrete evaluation of the illumination channel for `bSquare3`. -/
theorem bSquare3_illum_eval :
    bSquare3.get_illumination = .ok [1, 1, 7] := by
  obtain ⟨_, _, _, hn, _⟩ := bSquare3_counts
  delta Stimulus.StimulusBuilder.get_illumination
  rw [hn]
  norm_num [bSquare3, setLast]
  rfl

/-- Concrete evaluation of the camera trigger channel for `bSquare3`:
`samples_per_frame = int(1*1/2) = 0`, so the raw wave is empty and the
length fixup pads it to `[0,0,0]`. -/
theorem bSquare3_camera_eval :
    bSquare3.get_camera 1 false = .ok [[0, 0, 0]] := by
  obtain ⟨h0, h1, h2, _, hNf⟩ := bSquare3_counts
  have hspf : pyInt (bSquare3.frame_length * bSquare3.fs / 2) = 0 := by
    refine pyInt_eq _ 0 ?_ ?_ ?_ <;> norm_num [bSquare3]
  have hchan : bSquare3.camera_channel 0 0 = some [0, 0, 0] := by
    delta Stimulus.StimulusBuilder.camera_channel
    rw [hspf, hNf, h0, h1, h2]
    norm_num [Stimulus.forceLen, setLast]
    rfl
  delta Stimulus.StimulusBuilder.get_camera
  simp only [if_neg (Bool.false_ne_true)]
  show bSquare3.camera_channels 0 (List.range 1) = _
  rw [List.range_succ, List.range_zero, List.nil_append]
  simp only [Stimulus.StimulusBuilder.camera_channels, hchan]

/-- Concrete evaluation: `bHalf`'s per-window counts are 1 each but the
illumination count is 4 (`int(1.5) = 1` thrice versus `int(4.5) = 4`). -/
theorem bHalf_counts :
    bHalf.N0_samples = 1 ∧ bHalf.N1_samples = 1 ∧ bHalf.N2_samples = 1 ∧
    bHalf.n_illumination = 4 := by
  have hi1 : pyInt ((1 : ℚ) / 2 * 3) = 1 := pyInt_eq _ 1 (by norm_num)
    (by norm_num) (by norm_num)
  have hi4 : pyInt (((1 : ℚ) / 2 + 1 / 2 + 1 / 2) * 3) = 4 :=
    pyInt_eq _ 4 (by norm_num) (by norm_num) (by norm_num)
  refine ⟨?_, ?_, ?_, ?_⟩
  · simp only [Stimulus.StimulusBuilder.N0_samples, bHalf, hi1]
    rfl
  · simp only [Stimulus.StimulusBuilder.N1_samples, bHalf, hi1]
    rfl
  · simp only [Stimulus.StimulusBuilder.N2_samples, bHalf, hi1]
    rfl
  · simp only [Stimulus.StimulusBuilder.n_illumination, bHalf, hi4]
    rfl

/-- Concrete evaluation of the stimulus channel for `bHalf`: 3 samples. -/
theorem bHalf_pulse_eval :
    bHalf.get_stimulus_pulse npo0 Stimulus.simpleFloat = .ok [0, 1, 0] := by
  obtain ⟨h0, h1, h2, _⟩ := bHalf_counts
  have hov : bHalf.overload_stimulus = none := rfl
  simp only [Stimulus.StimulusBuilder.get_stimulus_pulse, hov, h0, h1, h2]
  norm_num [bHalf, setLast]

/-- Concrete evaluation of the illumination channel for `bHalf`: 4
samples. -/
theorem bHalf_illum_eval :
    bHalf.get_illumination = .ok [1, 1, 1, 0] := by
  obtain ⟨_, _, _, hn⟩ := bHalf_counts
  delta Stimulus.StimulusBuilder.get_illumination
  rw [hn]
  norm_num [bHalf, setLast]
  rfl

theorem natCeil_sub_one (x : ℚ) (hx : 0 < x) : ⌈x - 1⌉₊ = ⌈x⌉₊ - 1 := by
  rcases le_or_lt x 1 with h | h
  · have h1 : ⌈x⌉₊ = 1 := by
      refine le_antisymm (Nat.ceil_le.mpr (by exact_mod_cast h)) ?_
      exact Nat.ceil_pos.mpr hx
    have h2 : ⌈x - 1⌉₊ = 0 := Nat.ceil_eq_zero.mpr (by linarith)
    omega
  · have hm2 : 2 ≤ ⌈x⌉₊ := by
      have : (1 : ℕ) < ⌈x⌉₊ := Nat.lt_ceil.mpr (by exact_mod_cast h)
      omega
    refine (Nat.ceil_eq_iff (by omega)).mpr ⟨?_, ?_⟩
    · have hlt : ((⌈x⌉₊ - 1 : ℕ) : ℚ) < x := Nat.lt_ceil.mp (by omega)
      rw [Nat.cast_sub (by omega)] at hlt
      rw [Nat.cast_sub (by omega), Nat.cast_sub (by omega)]
      push_cast at hlt ⊢
      linarith
    · have hle : x ≤ (⌈x⌉₊ : ℚ) := Nat.le_ceil x
      rw [Nat.cast_sub (by omega)]
      push_cast
      linarith

/-- Closed form of the inter-trial busy-wait under an always-continue
callback: it runs exactly `⌈(wakeup - clock)·100⌉` poll-sleep cycles and
ends at the first `0.01`-grid point at or past `wakeup`. -/
theorem intertrialWait_const_true (i : ℕ) (w : ℚ) :
    ∀ k fuel (c : ℚ), ⌈(w - c) * 100⌉₊ = k → k ≤ fuel →
      Core.intertrialWait (some fun _ => true) i w c fuel
        = ((List.replicate k (Core.pollCycle i)).flatten,
           c + (k : ℚ) / 100, false) := by
  intro k
  induction k with
  | zero =>
    intro fuel c hk _
    have hw : w ≤ c := by
      by_contra hlt
      push_neg at hlt
      have hpos : 0 < (w - c) * 100 := by
        have : 0 < w - c := by linarith
        positivity
      have := Nat.ceil_pos.mpr hpos
      omega
    have hrhs : c + (0 : ℕ) / 100 = c := by norm_num
    cases fuel with
    | zero =>
      unfold Core.intertrialWait
      rw [List.replicate_zero, List.flatten_nil]
      exact Prod.ext rfl (Prod.ext (by norm_num) rfl)
    | succ f =>
      unfold Core.intertrialWait
      rw [if_neg (by exact fun hcw => absurd hw (by linarith))]
      rw [List.replicate_zero, List.flatten_nil]
      exact Prod.ext rfl (Prod.ext (by norm_num) rfl)
  | succ k ih =>
    intro fuel c hk hf
    have hcw : c < w := by
      by_contra hge
      push_neg at hge
      have : (w - c) * 100 ≤ 0 := by nlinarith
      have := Nat.ceil_eq_zero.mpr this
      omega
    have hpos : 0 < (w - c) * 100 := by
      have : 0 < w - c := by linarith
      positivity
    obtain ⟨f, rfl⟩ : ∃ f, fuel = f + 1 := ⟨fuel - 1, by omega⟩
    have hk' : ⌈(w - (c + 1/100)) * 100⌉₊ = k := by
      have harg : (w - (c + 1/100)) * 100 = (w - c) * 100 - 1 := by ring
      rw [harg, natCeil_sub_one _ hpos, hk]
      omega
    unfold Core.intertrialWait
    rw [if_pos hcw]
    show (Core.Ev.poll i :: Core.Ev.sleep (1/100) ::
        (Core.intertrialWait (some fun _ => true) i w (c + 1/100) f).1,
      (Core.intertrialWait (some fun _ => true) i w (c + 1/100) f).2) = _
    rw [ih f (c + 1/100) hk' (by omega)]
    refine Prod.ext ?_ (Prod.ext ?_ rfl)
    · show Core.Ev.poll i :: Core.Ev.sleep (1/100) ::
        (List.replicate k (Core.pollCycle i)).flatten
        = (List.replicate (k + 1) (Core.pollCycle i)).flatten
      rw [List.replicate_succ, List.flatten_cons]
      rfl
    · show c + 1/100 + (k : ℚ) / 100 = c + (((k + 1 : ℕ) : ℚ)) / 100
      push_cast
      ring

/-- `lastSetLed` of a trace ending in a `setLed` event. -/
theorem lastSetLed_append (xs : List Core.Ev) (ch : ℕ) (v : ℚ) :
    Core.lastSetLed (xs ++ [Core.Ev.setLed ch v]) = some (ch, v) := by
  unfold Core.lastSetLed
  rw [List.foldl_append]
  rfl

/-- When the callback keeps returning `true` for repeat `i`, the
busy-wait never sets `exit_imaging` and emits only polls and `0.01` s
sleeps. -/
theorem intertrialWait_true_exit (f : ℕ → Bool) (i : ℕ) (w : ℚ)
    (hfi : f i = true) :
    ∀ fuel (c : ℚ),
      (Core.intertrialWait (some f) i w c fuel).2.2 = false ∧
      ∀ e ∈ (Core.intertrialWait (some f) i w c fuel).1,
        e = Core.Ev.poll i ∨ e = Core.Ev.sleep (1/100) := by
  intro fuel
  induction fuel with
  | zero =>
    intro c
    exact ⟨rfl, fun e he => absurd he (List.not_mem_nil e)⟩
  | succ fl ih =>
    intro c
    by_cases hcw : c < w
    · have hstep : Core.intertrialWait (some f) i w c (fl + 1)
          = (Core.Ev.poll i :: Core.Ev.sleep (1/100) ::
              (Core.intertrialWait (some f) i w (c + 1/100) fl).1,
             (Core.intertrialWait (some f) i w (c + 1/100) fl).2) := by
        rw [Core.intertrialWait]
        rw [if_pos hcw]
        show (if f i = false then ([Core.Ev.poll i], c, true)
          else (Core.Ev.poll i :: Core.Ev.sleep (1/100) ::
            (Core.intertrialWait (some f) i w (c + 1/100) fl).1,
            (Core.intertrialWait (some f) i w (c + 1/100) fl).2)) = _
        rw [if_neg (by simp [hfi])]
      rw [hstep]
      refine ⟨(ih (c + 1/100)).1, ?_⟩
      intro e he
      rcases List.mem_cons.mp he with he1 | he2
      · exact Or.inl he1
      · rcases List.mem_cons.mp he2 with he3 | he4
        · exact Or.inr he3
        · exact (ih (c + 1/100)).2 e he4
    · have hstep : Core.intertrialWait (some f) i w c (fl + 1)
          = ([], c, false) := by
        rw [Core.intertrialWait]
        rw [if_neg hcw]
      rw [hstep]
      exact ⟨rfl, fun e he => absurd he (List.not_mem_nil e)⟩

/-- For a callback that keeps returning `true` for repeat `i`, the whole
inter-trial phase (either variant) never sets `exit_imaging` and emits
only polls, sleeps and the `isi_slept_time` assignment. -/
theorem interTrialPhase_true (f : ℕ → Bool) (i : ℕ) (isi : ℚ)
    (isLast : Bool) (c : ℚ) (hfi : f i = true) :
    (Core.interTrialPhase (some f) i isi isLast c).2.2 = false ∧
    ∀ e ∈ (Core.interTrialPhase (some f) i isi isLast c).1,
      e = Core.Ev.poll i ∨ e = Core.Ev.sleep (1/100) ∨
      ∃ t, e = Core.Ev.setIsiSleptTime t := by
  cases isLast
  · have h := intertrialWait_true_exit f i (Core.wakeup_time c isi) hfi
      (⌈(Core.wakeup_time c isi - c) * 100⌉₊ + 1) c
    exact ⟨h.1, fun e he => by
      rcases h.2 e he with h1 | h2
      · exact Or.inl h1
      · exact Or.inr (Or.inl h2)⟩
  · refine ⟨rfl, ?_⟩
    intro e he
    rcases List.mem_singleton.mp he with rfl
    exact Or.inr (Or.inr ⟨_, rfl⟩)

/-- Iteration of the repeat loop at an index where the callback stops:
only the poll is emitted, then the loop breaks. -/
theorem runLoop_stop (p : Core.Params) (f : ℕ → Bool) (fails : ℕ → Bool)
    (isiL : List ℚ) (n i : ℕ) (c : ℚ) (hfi : f i = false) :
    Core.runLoop p (some f) fails isiL (n + 1) i c false
      = ([Core.Ev.poll i], none, c) := by
  simp [Core.runLoop, Core.cbFalse, hfi]

/-- Iteration of the repeat loop where `analog_output` raises: the
events up to and including the `acquireSeries` call are emitted and the
exception ends the run. -/
theorem runLoop_fail (p : Core.Params) (f : ℕ → Bool) (fails : ℕ → Bool)
    (isiL : List ℚ) (n i : ℕ) (c : ℚ) (hfi : f i = true)
    (hfa : fails i = true) :
    Core.runLoop p (some f) fails isiL (n + 1) i c false
      = ([Core.Ev.poll i, Core.Ev.getPulse i,
          Core.Ev.setLed p.ir_channel p.ir_imaging, Core.Ev.sleep (1/2),
          Core.Ev.acquireSeries i],
         some "analog_output raised", c + 1/2) := by
  simp [Core.runLoop, Core.cbFalse, hfi, hfa]

/-- Iteration of the repeat loop that completes: the full body, the
inter-trial phase, then the rest of the loop. -/
theorem runLoop_body (p : Core.Params) (f : ℕ → Bool) (fails : ℕ → Bool)
    (isiL : List ℚ) (n i : ℕ) (c : ℚ) (hfi : f i = true)
    (hfa : fails i = false) :
    Core.runLoop p (some f) fails isiL (n + 1) i c false
      = ([Core.Ev.poll i, Core.Ev.getPulse i,
          Core.Ev.setLed p.ir_channel p.ir_imaging, Core.Ev.sleep (1/2),
          Core.Ev.acquireSeries i, Core.Ev.analogOutput i,
          Core.Ev.setLed p.ir_channel p.ir_waiting] ++
          (Core.interTrialPhase (some f) i (isiL.getD i 0)
            (decide (i + 1 = p.repeats)) (c + 1/2)).1 ++
          (Core.runLoop p (some f) fails isiL n (i + 1)
            (Core.interTrialPhase (some f) i (isiL.getD i 0)
              (decide (i + 1 = p.repeats)) (c + 1/2)).2.1
            (Core.interTrialPhase (some f) i (isiL.getD i 0)
              (decide (i + 1 = p.repeats)) (c + 1/2)).2.2).1,
         (Core.runLoop p (some f) fails isiL n (i + 1)
           (Core.interTrialPhase (some f) i (isiL.getD i 0)
             (decide (i + 1 = p.repeats)) (c + 1/2)).2.1
           (Core.interTrialPhase (some f) i (isiL.getD i 0)
             (decide (i + 1 = p.repeats)) (c + 1/2)).2.2).2.1,
         (Core.runLoop p (some f) fails isiL n (i + 1)
           (Core.interTrialPhase (some f) i (isiL.getD i 0)
             (decide (i + 1 = p.repeats)) (c + 1/2)).2.1
           (Core.interTrialPhase (some f) i (isiL.getD i 0)
             (decide (i + 1 = p.repeats)) (c + 1/2)).2.2).2.2) := by
  simp [Core.runLoop, Core.cbFalse, hfi, hfa]

/-- Main induction for the sequencer abort behavior: with a callback
whose first `false` is at repeat `k`, no error is raised (given
`analog_output` never raises) and the loop from repeat `i ≤ k` performs
the acquisition and playback of exactly the repeats `j` with
`i ≤ j < min k (i + n)`. -/
theorem runLoop_abort (p : Core.Params) (f : ℕ → Bool) (fails : ℕ → Bool)
    (isiL : List ℚ) (k : ℕ) (hfk : f k = false)
    (hlt : ∀ j, j < k → f j = true) (hnf : ∀ j, fails j = false) :
    ∀ n i (c : ℚ), i ≤ k →
      (Core.runLoop p (some f) fails isiL n i c false).2.1 = none ∧
      ∀ j : ℕ,
        (Core.Ev.acquireSeries j ∈
            (Core.runLoop p (some f) fails isiL n i c false).1 ↔
          i ≤ j ∧ j < min k (i + n)) ∧
        (Core.Ev.analogOutput j ∈
            (Core.runLoop p (some f) fails isiL n i c false).1 ↔
          i ≤ j ∧ j < min k (i + n)) := by
  intro n
  induction n with
  | zero =>
    intro i c hik
    refine ⟨rfl, fun j => ⟨?_, ?_⟩⟩ <;>
    · constructor
      · intro h
        exact absurd h (List.not_mem_nil _)
      · intro h
        omega
  | succ n ih =>
    intro i c hik
    rcases Nat.eq_or_lt_of_le hik with he | hlt_ik
    · have hfi : f i = false := by rw [he]; exact hfk
      rw [runLoop_stop p f fails isiL n i c hfi]
      refine ⟨rfl, fun j => ⟨?_, ?_⟩⟩ <;>
      · constructor
        · intro h
          have h2 := List.mem_singleton.mp h
          simp at h2
        · intro h
          omega
    · have hfi : f i = true := hlt _ hlt_ik
      have hfa : fails i = false := hnf i
      rw [runLoop_body p f fails isiL n i c hfi hfa]
      obtain ⟨hWexit, hWev⟩ := interTrialPhase_true f i (isiL.getD i 0)
        (decide (i + 1 = p.repeats)) (c + 1/2) hfi
      rw [hWexit]
      obtain ⟨ihe, ihm⟩ := ih (i + 1)
        ((Core.interTrialPhase (some f) i (isiL.getD i 0)
          (decide (i + 1 = p.repeats)) (c + 1/2)).2.1) (by omega)
      refine ⟨ihe, fun j => ?_⟩
      obtain ⟨iha, ihn⟩ := ihm j
      have hWa : Core.Ev.acquireSeries j ∉
          (Core.interTrialPhase (some f) i (isiL.getD i 0)
            (decide (i + 1 = p.repeats)) (c + 1/2)).1 := by
        intro hmem
        rcases hWev _ hmem with h | h | ⟨t, h⟩ <;> simp at h
      have hWn : Core.Ev.analogOutput j ∉
          (Core.interTrialPhase (some f) i (isiL.getD i 0)
            (decide (i + 1 = p.repeats)) (c + 1/2)).1 := by
        intro hmem
        rcases hWev _ hmem with h | h | ⟨t, h⟩ <;> simp at h
      constructor
      · constructor
        · intro hmem
          rcases List.mem_append.mp hmem with h12 | h
          · rcases List.mem_append.mp h12 with h1 | h
            · simp only [List.mem_cons, List.not_mem_nil, or_false] at h1
              rcases h1 with h | h | h | h | h | h | h
              · simp at h
              · simp at h
              · simp at h
              · simp at h
              · simp only [Core.Ev.acquireSeries.injEq] at h
                omega
              · simp at h
              · simp at h
            · exact absurd h hWa
          · have := iha.mp h
            omega
        · intro hcond
          by_cases hji : j = i
          · subst hji
            simp
          · have hm := iha.mpr ⟨by omega, by omega⟩
            exact List.mem_append.mpr (Or.inr hm)
      · constructor
        · intro hmem
          rcases List.mem_append.mp hmem with h12 | h
          · rcases List.mem_append.mp h12 with h1 | h
            · simp only [List.mem_cons, List.not_mem_nil, or_false] at h1
              rcases h1 with h | h | h | h | h | h | h
              · simp at h
              · simp at h
              · simp at h
              · simp at h
              · simp at h
              · simp only [Core.Ev.analogOutput.injEq] at h
                omega
              · simp at h
            · exact absurd h hWn
          · have := ihn.mp h
            omega
        · intro hcond
          by_cases hji : j = i
          · subst hji
            simp
          · have hm := ihn.mpr ⟨by omega, by omega⟩
            exact List.mem_append.mpr (Or.inr hm)

/-! ## Claims -/

/-- Claim C10 (confirmed).  `currentAsZero` stores the offset-corrected
angle as the new offset, so: a `currentAsZero` immediately followed by
`getLatest` returns the offset in effect before the call; that round
trip yields `(0,0)` exactly when the prior offset was `(0,0)`; and two
consecutive `currentAsZero` calls restore the original offset rather
than being idempotent. -/
theorem claim_C10 (r : ArduinoSerial.Reader) :
    ArduinoSerial.getLatest (ArduinoSerial.currentAsZero r) = r.offset ∧
    (ArduinoSerial.getLatest (ArduinoSerial.currentAsZero r) = (0, 0) ↔
      r.offset = (0, 0)) ∧
    (ArduinoSerial.currentAsZero (ArduinoSerial.currentAsZero r)).offset
      = r.offset := by
  obtain ⟨⟨l1, l2⟩, ⟨o1, o2⟩⟩ := r
  simp [ArduinoSerial.getLatest, ArduinoSerial.currentAsZero,
    ArduinoSerial.offsetCorrect, sub_sub_cancel]

/-- Claim C3 (code bug).  Evaluating the code at the failing input: from a
fresh motor at tracked position 0, `set_lower_limit()` followed by
`move_raw(-1)` *does* issue a motor pulse and leaves the tracked
position at −1, below the just-configured limit — `set_lower_limit`
writes `self.limits[1]` (the upper slot) and `move_raw`'s guard admits
any downward move while `curpos <= self.limits[1]`, contradicting both
the claim and the source's own docstrings. -/
theorem claim_C3 :
    ((Motors.Motor.mk0 (some 0)).set_lower_limit.move_raw (-1) 1).2 = true ∧
    ((Motors.Motor.mk0 (some 0)).set_lower_limit.move_raw (-1) 1).1.position
      = -1 := by
  constructor
  · simp [Motors.Motor.mk0, Motors.Motor.set_lower_limit,
      Motors.Motor.move_raw, Motors.PFloat.leQ, Motors.PFloat.qLe,
      Motors.PFloat.ltQ, Motors.PFloat.qLt]
  · simp [Motors.Motor.mk0, Motors.Motor.set_lower_limit,
      Motors.Motor.move_raw, Motors.PFloat.leQ, Motors.PFloat.qLe,
      Motors.PFloat.ltQ, Motors.PFloat.qLt]

/-- Claim C4 (code bug).  Evaluating the code at the failing input: on a
fresh motor that *has* a position sensor and no active correction loop,
`move_to(5)` returns without starting any correction loop (the source's
guard `if self.thread:` only fires when a loop already exists), and
`reached_target()` still reports `true`, contradicting the claim that a
correction loop starts and `reached_target()` reports `false`. -/
theorem claim_C4 :
    (Motors.Motor.mk0 (some 0)).move_to 5 = .ok (Motors.Motor.mk0 (some 0)) ∧
    (Motors.Motor.mk0 (some 0)).reached_target = true := by
  constructor
  · rfl
  · rfl

/-- Claim C1 (code bug).  Evaluating the code at the failing input
`n = 2500`, `fs = 1000`: the source passes
`timeout=len(stimuli[0])*fs*1.5 = 3 750 000` seconds to
`wait_until_done`, where the claimed policy `1.5·(n/fs)` is `3.75`
seconds; consequently a playback stalled for 100 s sails through the
code's timeout although it exceeds the claimed budget 25-fold. -/
theorem claim_C1 :
    Core.analog_output_timeout 2500 1000 = 3750000 ∧
    Core.spec_timeout 2500 1000 = 15/4 ∧
    Core.analog_output_timeout 2500 1000 ≠ Core.spec_timeout 2500 1000 ∧
    Core.analog_output_wait 2500 1000 100 = .ok () ∧
    Core.wait_until_done (Core.spec_timeout 2500 1000) 100
      = .error "DaqError: Wait Until Done did not indicate completion" := by
  refine ⟨by norm_num [Core.analog_output_timeout],
    by norm_num [Core.spec_timeout], by norm_num [Core.analog_output_timeout,
      Core.spec_timeout], ?_, ?_⟩
  · unfold Core.analog_output_wait Core.wait_until_done
      Core.analog_output_timeout
    norm_num
  · unfold Core.wait_until_done Core.spec_timeout
    norm_num

/-- With every connection attempt refused, the loop makes
`retries + 1 - tries` further attempts, sleeps `retries - tries` times,
and raises the fixed-message `ConnectionRefusedError`. -/
theorem CameraClient.sendLoop_refused (retries : ℕ) :
    ∀ g tries, retries - tries = g → tries ≤ retries →
      CameraClient.sendLoop (fun _ => false) retries tries =
        ⟨retries + 1 - tries, retries - tries,
          .error "Cannot connect to the camera server"⟩ := by
  intro g
  induction g with
  | zero =>
    intro tries hg hle
    have he : tries = retries := by omega
    subst he
    unfold CameraClient.sendLoop
    simp only [Bool.false_eq_true, if_false]
    rw [if_pos (by omega)]
    rw [show tries + 1 - tries = 1 from by omega, Nat.sub_self]
  | succ g ih =>
    intro tries hg hle
    have h1 : tries < retries := by omega
    unfold CameraClient.sendLoop
    simp only [Bool.false_eq_true, if_false]
    rw [if_neg (by omega)]
    rw [ih (tries + 1) (by omega) (by omega)]
    simp only [CameraClient.ConnectTrace.mk.injEq]
    refine ⟨by omega, by omega, trivial⟩

/-- If some attempt within the budget is accepted, the loop ends with no
error. -/
theorem CameraClient.sendLoop_success (retries : ℕ) (ok : ℕ → Bool) :
    ∀ g tries, retries - tries = g →
      (∃ j, tries ≤ j ∧ j ≤ retries ∧ ok j = true) →
      (CameraClient.sendLoop ok retries tries).outcome = .ok () := by
  intro g
  induction g with
  | zero =>
    intro tries hg ⟨j, hj1, hj2, hj3⟩
    have he : j = tries := by omega
    subst he
    unfold CameraClient.sendLoop
    rw [if_pos hj3]
  | succ g ih =>
    intro tries hg ⟨j, hj1, hj2, hj3⟩
    unfold CameraClient.sendLoop
    by_cases hok : ok tries = true
    · rw [if_pos hok]
    · rw [if_neg hok]
      have hjt : tries + 1 ≤ j := by
        rcases Nat.eq_or_lt_of_le hj1 with he | hlt
        · exact absurd (he ▸ hj3) hok
        · omega
      rw [if_neg (by omega)]
      exact ih (tries + 1) (by omega) ⟨j, hjt, hj2, hj3⟩

/-- Claim C8 (corrected).  Against an always-refused host, `sendCommand`
with retry budget `r` makes exactly `r + 1` connection attempts with a
fixed `RETRY_INTERVAL` sleep between consecutive attempts (`r` sleeps in
total, so zero delay when `r = 0`, where it raises on the first refused
attempt), then raises `ConnectionRefusedError` with a fixed message —
which, contrary to the claim, carries no exhausted-retry count; and no
error is raised if some attempt within the budget connects. -/
theorem claim_C8 (r : ℕ) (ok : ℕ → Bool) :
    CameraClient.sendCommand (fun _ => false) r =
      ⟨r + 1, r, .error "Cannot connect to the camera server"⟩ ∧
    ((∃ j, j ≤ r ∧ ok j = true) →
      (CameraClient.sendCommand ok r).outcome = .ok ()) := by
  constructor
  · have := CameraClient.sendLoop_refused r r 0 (by omega) (by omega)
    unfold CameraClient.sendCommand
    rw [this]
    simp only [CameraClient.ConnectTrace.mk.injEq]
    refine ⟨by omega, by omega, trivial⟩
  · intro ⟨j, hj, hok⟩
    exact CameraClient.sendLoop_success r ok r 0 (by omega)
      ⟨j, Nat.zero_le j, hj, hok⟩

/-- Witness for C8 at `r = 0` with an oracle accepting the first
attempt. -/
theorem claim_C8_witness :
    CameraClient.sendCommand (fun _ => false) 0 =
      ⟨1, 0, .error "Cannot connect to the camera server"⟩ ∧
    (CameraClient.sendCommand (fun _ => true) 0).outcome = .ok () :=
  ⟨(claim_C8 0 (fun _ => true)).1,
    (claim_C8 0 (fun _ => true)).2 ⟨0, Nat.le_refl 0, rfl⟩⟩

/-- Counterexample to claim C8.  The raised error is the same value for retry
budgets 0 and 5, so it cannot carry the exhausted-retry count the claim
says it carries. -/
theorem claim_C8_counterexample :
    (CameraClient.sendCommand (fun _ => false) 0).outcome =
      (CameraClient.sendCommand (fun _ => false) 5).outcome ∧
    (0 : ℕ) ≠ 5 ∧
    (CameraClient.sendCommand (fun _ => false) 5).outcome =
      .error "Cannot connect to the camera server" := by
  have h0 := CameraClient.sendLoop_refused 0 0 0 (by omega) (by omega)
  have h5 := CameraClient.sendLoop_refused 5 5 0 (by omega) (by omega)
  unfold CameraClient.sendCommand
  rw [h0, h5]
  exact ⟨rfl, by omega, rfl⟩

/-- Claim C2 (corrected).  For every successfully synthesized parameter
set (no overload): the stimulus channel and every trigger channel have
length `int(prestim*fs) + int(stim*fs) + int(poststim*fs)`, while the
illumination channel has length `int((stim+prestim+poststim)*fs)` —
computed with per-segment `int()` truncation, not a common
`round((pre+stim+post)*fs)`.  When each product `duration·fs` is a
nonnegative integer (the usual whole-sample configuration), the three
lengths agree and equal `round((pre+stim+post)*fs)` as the claim
states. -/
theorem claim_C2 (npo : Stimulus.NumpyOracle)
    (pyfloat : List Char → Option ℚ) (b : Stimulus.StimulusBuilder)
    (N : ℕ) (intl : Bool) (ls li : List ℚ) (lc : List (List ℚ))
    (hover : b.overload_stimulus = none)
    (hs : b.get_stimulus_pulse npo pyfloat = .ok ls)
    (hi : b.get_illumination = .ok li)
    (hc : b.get_camera N intl = .ok lc) :
    (ls.length = b.N0_samples + b.N1_samples + b.N2_samples ∧
      (∀ c ∈ lc, c.length = ls.length) ∧
      li.length = b.n_illumination) ∧
    (∀ a0 a1 a2 : ℤ,
      b.prestim_time * b.fs = (a0 : ℚ) → b.stim_time * b.fs = (a1 : ℚ) →
      b.poststim_time * b.fs = (a2 : ℚ) → 0 ≤ a0 → 0 ≤ a1 → 0 ≤ a2 →
      ls.length = (pyRound ((b.prestim_time + b.stim_time +
        b.poststim_time) * b.fs)).toNat ∧
      li.length = ls.length) := by
  have h1 := Stimulus.get_stimulus_pulse_length npo pyfloat b ls hover hs
  have h2 := Stimulus.get_camera_length b N intl lc hc
  have h3 := Stimulus.get_illumination_length b li hi
  refine ⟨⟨h1, fun c hcm => by rw [h2 c hcm, h1], h3⟩, ?_⟩
  intro a0 a1 a2 e0 e1 e2 n0 n1 n2
  have hsum : (b.prestim_time + b.stim_time + b.poststim_time) * b.fs
      = ((a0 + a1 + a2 : ℤ) : ℚ) := by
    push_cast
    rw [← e0, ← e1, ← e2]
    ring
  have hsum2 : (b.stim_time + b.prestim_time + b.poststim_time) * b.fs
      = ((a0 + a1 + a2 : ℤ) : ℚ) := by
    push_cast
    rw [← e0, ← e1, ← e2]
    ring
  have hN0 : b.N0_samples = a0.toNat := by
    unfold Stimulus.StimulusBuilder.N0_samples
    rw [e0, pyInt_intCast]
  have hN1 : b.N1_samples = a1.toNat := by
    unfold Stimulus.StimulusBuilder.N1_samples
    rw [e1, pyInt_intCast]
  have hN2 : b.N2_samples = a2.toNat := by
    unfold Stimulus.StimulusBuilder.N2_samples
    rw [e2, pyInt_intCast]
  have hIll : b.n_illumination = (a0 + a1 + a2).toNat := by
    unfold Stimulus.StimulusBuilder.n_illumination
    rw [hsum2, pyInt_intCast]
  have hR : pyRound ((b.prestim_time + b.stim_time + b.poststim_time) * b.fs)
      = a0 + a1 + a2 := by
    rw [hsum, pyRound_intCast]
  constructor
  · rw [h1, hN0, hN1, hN2, hR]
    omega
  · rw [h3, hIll, h1, hN0, hN1, hN2]
    omega

/-- Witness for C2: the whole-sample builder `bSquare3`
(`1 s / 1 s / 1 s` at `fs = 1`), where all three channels have length
3 = `round(3*1)`. -/
theorem claim_C2_witness :
    ∃ ls li lc,
      bSquare3.get_stimulus_pulse npo0 Stimulus.simpleFloat = .ok ls ∧
      bSquare3.get_illumination = .ok li ∧
      bSquare3.get_camera 1 false = .ok lc ∧
      ls.length = (pyRound ((bSquare3.prestim_time + bSquare3.stim_time +
        bSquare3.poststim_time) * bSquare3.fs)).toNat ∧
      li.length = ls.length ∧ (∀ c ∈ lc, c.length = ls.length) := by
  have h := claim_C2 npo0 Stimulus.simpleFloat bSquare3 1 false [0, 1, 9]
    [1, 1, 7] [[0, 0, 0]]
    rfl bSquare3_pulse_eval bSquare3_illum_eval bSquare3_camera_eval
  have hint := h.2 1 1 1 (by norm_num [bSquare3]) (by norm_num [bSquare3])
    (by norm_num [bSquare3]) (by norm_num) (by norm_num) (by norm_num)
  exact ⟨_, _, _, bSquare3_pulse_eval, bSquare3_illum_eval,
    bSquare3_camera_eval, hint.1, hint.2, h.1.2.1⟩

/-- Counterexample to claim C2.  At `prestim = stim = poststim = 0.5` s,
`fs = 3` Hz (float-exact values), the stimulus channel has 3 samples but
the illumination channel has 4, and `round((pre+stim+post)*fs)` is 4 —
so the channels are neither of equal length nor of the claimed length. -/
theorem claim_C2_counterexample :
    bHalf.get_stimulus_pulse npo0 Stimulus.simpleFloat = .ok [0, 1, 0] ∧
    bHalf.get_illumination = .ok [1, 1, 1, 0] ∧
    ([0, 1, 0] : List ℚ).length = 3 ∧
    ([1, 1, 1, 0] : List ℚ).length = 4 ∧
    (pyRound ((bHalf.prestim_time + bHalf.stim_time + bHalf.poststim_time) *
      bHalf.fs)).toNat = 4 ∧
    (3 : ℕ) ≠ 4 := by
  refine ⟨bHalf_pulse_eval, bHalf_illum_eval, rfl, rfl, ?_, by omega⟩
  have hq : (bHalf.prestim_time + bHalf.stim_time + bHalf.poststim_time) *
      bHalf.fs = 9/2 := by
    norm_num [bHalf]
  rw [hq]
  have h45 : pyRound (9/2 : ℚ) = 4 := by
    refine pyRound_eval_half_even _ 4 ?_ (by norm_num) (by norm_num)
    norm_num [Int.floor_eq_iff]
  rw [h45]
  rfl

/-- Claim C9 (confirmed).  For every successfully synthesized parameter
set (no overload), the last stimulus sample is `stimulus_finalval`, the
last illumination sample is `illumination_finalval`, and the last sample
of every trigger channel is 0. -/
theorem claim_C9 (npo : Stimulus.NumpyOracle)
    (pyfloat : List Char → Option ℚ) (b : Stimulus.StimulusBuilder)
    (N : ℕ) (intl : Bool) (ls li : List ℚ) (lc : List (List ℚ))
    (hover : b.overload_stimulus = none)
    (hs : b.get_stimulus_pulse npo pyfloat = .ok ls)
    (hi : b.get_illumination = .ok li)
    (hc : b.get_camera N intl = .ok lc) :
    ls.getLast? = some b.stimulus_finalval ∧
    li.getLast? = some b.illumination_finalval ∧
    ∀ c ∈ lc, c.getLast? = some 0 :=
  ⟨Stimulus.get_stimulus_pulse_getLast npo pyfloat b ls hover hs,
   Stimulus.get_illumination_getLast b li hi,
   Stimulus.get_camera_getLast b N intl lc hc⟩

/-- Witness for C9 at `bSquare3` (`stimulus_finalval = 9`,
`illumination_finalval = 7`). -/
theorem claim_C9_witness :
    bSquare3.get_stimulus_pulse npo0 Stimulus.simpleFloat = .ok [0, 1, 9] ∧
    ([0, 1, 9] : List ℚ).getLast? = some bSquare3.stimulus_finalval ∧
    ([1, 1, 7] : List ℚ).getLast? = some bSquare3.illumination_finalval ∧
    ∀ c ∈ [([0, 0, 0] : List ℚ)], c.getLast? = some (0 : ℚ) := by
  have h := claim_C9 npo0 Stimulus.simpleFloat bSquare3 1 false [0, 1, 9]
    [1, 1, 7] [[0, 0, 0]]
    rfl bSquare3_pulse_eval bSquare3_illum_eval bSquare3_camera_eval
  exact ⟨bSquare3_pulse_eval, h.1, h.2.1, h.2.2⟩

/-- Claim C7 (confirmed).  For every waveform-type tag that is neither
one of the four recognized tags nor a well-formed sweep spec, synthesis
returns an error before any waveform array is produced.  Both
well-formedness and the synthesis path judge the numeric fields by the
same abstract `float()` oracle, and the theorem holds for every oracle
— in particular for the real Python parser, under which specs like
`"sinelogsweep,1e3,100"` are well-formed and so outside the
quantifier. -/
theorem claim_C7 (npo : Stimulus.NumpyOracle)
    (pyfloat : List Char → Option ℚ) (b : Stimulus.StimulusBuilder)
    (hover : b.overload_stimulus = none)
    (hrec : Stimulus.recognizedWtype b.wtype = false)
    (hwf : Stimulus.wellFormedSweep pyfloat b.wtype = false) :
    ∃ e, b.get_stimulus_pulse npo pyfloat = .error e := by
  have hrec' := hrec
  simp only [Stimulus.recognizedWtype, Bool.or_eq_false_iff,
    decide_eq_false_iff_not] at hrec'
  obtain ⟨⟨⟨hsq, hsl⟩, hql⟩, h3l⟩ := hrec'
  simp only [Stimulus.StimulusBuilder.get_stimulus_pulse, hover]
  rw [if_neg (fun he => hsq (by rw [he]))]
  by_cases hc : Stimulus.containsSeq "logsweep".toList b.wtype.toList = true
  · rw [if_pos hc]
    rcases hp : Stimulus.sweepParse pyfloat b.wtype.toList with _ | v
    · have hres : Stimulus.sweepResolve pyfloat b.wtype.toList
          = (b.wtype.toList, 1/2, 100) := by
        unfold Stimulus.sweepResolve
        rw [hp]
      simp only [hres]
      have hquant : Stimulus.sweepQuantize npo b.wtype.toList
          ((Stimulus.linspace 0 b.stim_time b.N1_samples).map
            (npo.chirp (1/2) 100 b.stim_time))
          = .error "ValueError: Unkown flash_type" := by
        unfold Stimulus.sweepQuantize
        rw [if_neg hql, if_neg h3l, if_neg hsl]
      rw [hquant]
      exact ⟨_, rfl⟩
    · have hres : Stimulus.sweepResolve pyfloat b.wtype.toList = v := by
        unfold Stimulus.sweepResolve
        rw [hp]
      simp only [Stimulus.wellFormedSweep, hc, hp, Bool.true_and,
        Bool.or_eq_false_iff, decide_eq_false_iff_not] at hwf
      obtain ⟨⟨hv1, hv2⟩, hv3⟩ := hwf
      simp only [hres]
      have hquant : Stimulus.sweepQuantize npo v.1
          ((Stimulus.linspace 0 b.stim_time b.N1_samples).map
            (npo.chirp v.2.1 v.2.2 b.stim_time))
          = .error "ValueError: Unkown flash_type" := by
        unfold Stimulus.sweepQuantize
        rw [if_neg hv1, if_neg hv2, if_neg hv3]
      rw [hquant]
      exact ⟨_, rfl⟩
  · rw [if_neg hc]
    exact ⟨_, rfl⟩

/-- Witness for C7: the malformed sweep spec `"sinelogsweep,a,b"`
(fields `float()` rejects — `simpleFloat` agrees with the builtin on
`a` and `b`) is rejected at synthesis time. -/
theorem claim_C7_witness :
    Stimulus.recognizedWtype "sinelogsweep,a,b" = false ∧
    Stimulus.wellFormedSweep Stimulus.simpleFloat "sinelogsweep,a,b"
      = false ∧
    ∃ e, (⟨1, 1, 1, 1, 1, 1, 1, 0, 0, "sinelogsweep,a,b", none⟩ :
      Stimulus.StimulusBuilder).get_stimulus_pulse npo0
        Stimulus.simpleFloat = .error e :=
  ⟨by decide, by decide,
    claim_C7 npo0 Stimulus.simpleFloat _ rfl (by decide) (by decide)⟩

/-- Claim C5 (corrected).  For a non-final repeat the inter-trial wait's
deadline is the repeat's end time plus `isi[i]` **minus 0.5 s**
(`wakeup_time = time.time() + isi[i]-0.5`), polled in poll-sleep cycles
of `0.01` s; the wait ends at the first grid point at or past that
deadline.  For the final repeat the sequencer records
`isi_slept_time = now + isi[i]` and proceeds immediately. -/
theorem claim_C5 (i : ℕ) (isi c : ℚ) (cb' : Option (ℕ → Bool))
    (hisi : 1/2 ≤ isi) :
    (Core.interTrialPhase (some fun _ => true) i isi false c
      = ((List.replicate ⌈(isi - 1/2) * 100⌉₊ (Core.pollCycle i)).flatten,
         c + (⌈(isi - 1/2) * 100⌉₊ : ℚ) / 100, false)) ∧
    Core.wakeup_time c isi ≤ c + (⌈(isi - 1/2) * 100⌉₊ : ℚ) / 100 ∧
    c + (⌈(isi - 1/2) * 100⌉₊ : ℚ) / 100 < Core.wakeup_time c isi + 1/100 ∧
    Core.interTrialPhase cb' i isi true c
      = ([Core.Ev.setIsiSleptTime (c + isi)], c, false) := by
  have harg : (Core.wakeup_time c isi - c) * 100 = (isi - 1/2) * 100 := by
    unfold Core.wakeup_time
    ring
  have hk : ⌈(Core.wakeup_time c isi - c) * 100⌉₊ = ⌈(isi - 1/2) * 100⌉₊ := by
    rw [harg]
  have hmain := intertrialWait_const_true i (Core.wakeup_time c isi)
    ⌈(isi - 1/2) * 100⌉₊ (⌈(Core.wakeup_time c isi - c) * 100⌉₊ + 1) c hk
    (by omega)
  refine ⟨?_, ?_, ?_, rfl⟩
  · show Core.intertrialWait (some fun _ => true) i (Core.wakeup_time c isi)
      c (⌈(Core.wakeup_time c isi - c) * 100⌉₊ + 1)
      = ((List.replicate ⌈(isi - 1/2) * 100⌉₊ (Core.pollCycle i)).flatten,
         c + (⌈(isi - 1/2) * 100⌉₊ : ℚ) / 100, false)
    exact hmain
  · have := Nat.le_ceil ((isi - 1/2) * 100)
    unfold Core.wakeup_time
    linarith
  · have := Nat.ceil_lt_add_one (a := (isi - 1/2) * 100) (by linarith)
    unfold Core.wakeup_time
    linarith

/-- Witness for C5 at `isi = 2`, repeat end time 0. -/
theorem claim_C5_witness :
    (Core.interTrialPhase (some fun _ => true) 0 2 false 0
      = ((List.replicate ⌈((2 : ℚ) - 1/2) * 100⌉₊ (Core.pollCycle 0)).flatten,
         0 + (⌈((2 : ℚ) - 1/2) * 100⌉₊ : ℚ) / 100, false)) ∧
    Core.wakeup_time 0 2 ≤ 0 + (⌈((2 : ℚ) - 1/2) * 100⌉₊ : ℚ) / 100 ∧
    0 + (⌈((2 : ℚ) - 1/2) * 100⌉₊ : ℚ) / 100 < Core.wakeup_time 0 2 + 1/100 ∧
    Core.interTrialPhase none 0 2 true 0
      = ([Core.Ev.setIsiSleptTime (0 + 2)], 0, false) :=
  claim_C5 0 2 0 none (by norm_num)

/-- Counterexample to claim C5.  With `isi = 2` and repeat end time 0, the
code's wait deadline is `1.5`, not the claimed `end + isi = 2`; the wait
under an always-continue callback in fact ends at clock `1.5 < 2`. -/
theorem claim_C5_counterexample :
    Core.wakeup_time 0 2 = 3/2 ∧
    Core.spec_intertrial_deadline 0 2 = 2 ∧
    Core.wakeup_time 0 2 ≠ Core.spec_intertrial_deadline 0 2 ∧
    (Core.interTrialPhase (some fun _ => true) 0 2 false 0).2.1 = 3/2 ∧
    ¬ Core.spec_intertrial_deadline 0 2 ≤
      (Core.interTrialPhase (some fun _ => true) 0 2 false 0).2.1 := by
  have hceil : ⌈((Core.wakeup_time 0 2 : ℚ) - 0) * 100⌉₊ = 150 := by
    rw [show ((Core.wakeup_time 0 2 : ℚ) - 0) * 100 = ((150 : ℕ) : ℚ) by
      unfold Core.wakeup_time; push_cast; ring]
    exact Nat.ceil_natCast 150
  have hmain := intertrialWait_const_true 0 (Core.wakeup_time 0 2) 150
    (⌈((Core.wakeup_time 0 2 : ℚ) - 0) * 100⌉₊ + 1) 0 hceil (by omega)
  have hphase : (Core.interTrialPhase (some fun _ => true) 0 2 false 0).2.1
      = 3/2 := by
    show (Core.intertrialWait (some fun _ => true) 0 (Core.wakeup_time 0 2) 0
      (⌈(Core.wakeup_time 0 2 - 0) * 100⌉₊ + 1)).2.1 = 3/2
    rw [hmain]
    norm_num
  refine ⟨by unfold Core.wakeup_time; norm_num,
    by unfold Core.spec_intertrial_deadline; norm_num, ?_, hphase, ?_⟩
  · unfold Core.wakeup_time Core.spec_intertrial_deadline
    norm_num
  · rw [hphase]
    unfold Core.spec_intertrial_deadline
    norm_num

/-- Claim C6 (corrected).  With a cancellation callback that first returns
`false` at repeat `k < repeats` (and no exception during the run),
`image_series3` ends without error, performs acquisition and playback
for exactly the repeats `0 … k-1`, and its last illumination write is
the live-feed level.  (The error path, where the restore is skipped, is
the counterexample.) -/
theorem claim_C6 (p : Core.Params) (f : ℕ → Bool) (prior : Option ℚ)
    (c0 : ℚ) (k : ℕ) (hk : k < p.repeats) (hfk : f k = false)
    (hlt : ∀ j, j < k → f j = true) :
    (Core.image_series3 p (some f) (fun _ => false) prior c0).err = none ∧
    (∀ j, Core.Ev.acquireSeries j ∈
        (Core.image_series3 p (some f) (fun _ => false) prior c0).events ↔
      j < k) ∧
    (∀ j, Core.Ev.analogOutput j ∈
        (Core.image_series3 p (some f) (fun _ => false) prior c0).events ↔
      j < k) ∧
    Core.lastSetLed
        (Core.image_series3 p (some f) (fun _ => false) prior c0).events
      = some (p.ir_channel, p.ir_livefeed) := by
  obtain ⟨herr, hmem⟩ := runLoop_abort p f (fun _ => false)
    (Core.coerceParam p.isi p.repeats) k hfk hlt (fun _ => rfl) p.repeats 0
    (Core.prologue prior c0).2 (Nat.zero_le k)
  have himg : Core.image_series3 p (some f) (fun _ => false) prior c0
      = ⟨(Core.prologue prior c0).1 ++ [Core.Ev.saveDescription] ++
          (Core.runLoop p (some f) (fun _ => false)
            (Core.coerceParam p.isi p.repeats) p.repeats 0
            (Core.prologue prior c0).2 false).1 ++
          [Core.Ev.setLed p.ir_channel p.ir_livefeed],
         none,
         (Core.runLoop p (some f) (fun _ => false)
           (Core.coerceParam p.isi p.repeats) p.repeats 0
           (Core.prologue prior c0).2 false).2.2⟩ := by
    unfold Core.image_series3
    rw [herr]
  rw [himg]
  have hpre : ∀ e ∈ (Core.prologue prior c0).1, ∃ d, e = Core.Ev.sleep d := by
    unfold Core.prologue
    rcases prior with _ | t
    · intro e he
      simp at he
    · intro e he
      have he2 : e ∈ (if c0 < t then ([Core.Ev.sleep (t - c0)], t)
          else ([], c0)).1 := he
      by_cases hct : c0 < t
      · rw [if_pos hct] at he2
        exact ⟨t - c0, List.mem_singleton.mp he2⟩
      · rw [if_neg hct] at he2
        simp at he2
  refine ⟨rfl, ?_, ?_, lastSetLed_append _ _ _⟩
  · intro j
    constructor
    · intro h
      rcases List.mem_append.mp h with h3 | hl
      · rcases List.mem_append.mp h3 with h2 | hr
        · rcases List.mem_append.mp h2 with hp | hs
          · obtain ⟨d, hd⟩ := hpre _ hp
            simp at hd
          · have := List.mem_singleton.mp hs
            simp at this
        · have := ((hmem j).1).mp hr
          omega
      · have := List.mem_singleton.mp hl
        simp at this
    · intro hj
      have hm := ((hmem j).1).mpr ⟨Nat.zero_le j, by omega⟩
      exact List.mem_append.mpr (Or.inl (List.mem_append.mpr (Or.inr hm)))
  · intro j
    constructor
    · intro h
      rcases List.mem_append.mp h with h3 | hl
      · rcases List.mem_append.mp h3 with h2 | hr
        · rcases List.mem_append.mp h2 with hp | hs
          · obtain ⟨d, hd⟩ := hpre _ hp
            simp at hd
          · have := List.mem_singleton.mp hs
            simp at this
        · have := ((hmem j).2).mp hr
          omega
      · have := List.mem_singleton.mp hl
        simp at this
    · intro hj
      have hm := ((hmem j).2).mpr ⟨Nat.zero_le j, by omega⟩
      exact List.mem_append.mpr (Or.inl (List.mem_append.mpr (Or.inr hm)))

/-- Witness for C6: five repeats with a callback first false at repeat
index 2 — repeats 0 and 1 run, repeats 2–4 do not, illumination ends at
live-feed. -/
theorem claim_C6_witness :
    (Core.image_series3 Core.pFive (some fun j => decide (j < 2))
      (fun _ => false) none 0).err = none ∧
    (∀ j, Core.Ev.acquireSeries j ∈
        (Core.image_series3 Core.pFive (some fun j => decide (j < 2))
          (fun _ => false) none 0).events ↔ j < 2) ∧
    (∀ j, Core.Ev.analogOutput j ∈
        (Core.image_series3 Core.pFive (some fun j => decide (j < 2))
          (fun _ => false) none 0).events ↔ j < 2) ∧
    Core.lastSetLed (Core.image_series3 Core.pFive
        (some fun j => decide (j < 2)) (fun _ => false) none 0).events
      = some (Core.pFive.ir_channel, Core.pFive.ir_livefeed) :=
  claim_C6 Core.pFive (fun j => decide (j < 2)) none 0 2
    (by decide) (by decide) (fun j hj => by simp [hj])

/-- Counterexample to claim C6.  When `analog_output` raises on repeat 0
(e.g. the stalled-trigger `DaqError`), the exception propagates: the run
ends with an error, the last illumination write is the *imaging* level
(5), and the live-feed restore (`setLed 0 3`) never happens — there is
no `finally` around the loop, contradicting the claim's "on every exit
path" clause. -/
theorem claim_C6_counterexample :
    (Core.image_series3 Core.pFail (some fun _ => true) (fun _ => true)
      none 0).err = some "analog_output raised" ∧
    Core.lastSetLed (Core.image_series3 Core.pFail (some fun _ => true)
      (fun _ => true) none 0).events = some (0, 5) ∧
    Core.pFail.ir_livefeed = 3 ∧
    Core.Ev.setLed 0 3 ∉ (Core.image_series3 Core.pFail
      (some fun _ => true) (fun _ => true) none 0).events ∧
    (5 : ℚ) ≠ 3 := by
  have hrl := runLoop_fail Core.pFail (fun _ => true) (fun _ => true)
    (Core.coerceParam Core.pFail.isi (0 + 1)) 0 0 0 rfl rfl
  have himg : Core.image_series3 Core.pFail (some fun _ => true)
      (fun _ => true) none 0
      = ⟨[Core.Ev.saveDescription, Core.Ev.poll 0, Core.Ev.getPulse 0,
          Core.Ev.setLed 0 5, Core.Ev.sleep (1/2), Core.Ev.acquireSeries 0],
         some "analog_output raised", 0 + 1/2⟩ := by
    unfold Core.image_series3
    rw [show Core.pFail.repeats = 0 + 1 from rfl]
    rw [show (Core.prologue none (0 : ℚ)).2 = (0 : ℚ) from rfl]
    rw [hrl]
    rfl
  rw [himg]
  refine ⟨rfl, rfl, rfl, ?_, by norm_num⟩
  decide
